import Mathlib

/-!
Verification of the sqlx core: the templated-SQL compiler and validator
(packages/core/src/sql-parser.ts, query.ts), the schema introspector's
filtering, casing and batching logic (packages/schema/src/introspector.ts)
and the declaration generator (type-generator.ts).

Strings are modelled as `List Char`/`String`; the JavaScript regular
expressions of the source are translated into explicit character scans with
the same leftmost-match semantics, restricted to the ASCII inputs the
system manipulates (JS `\s` is modelled by `Char.isWhitespace`).
-/

/-! ### Character classes used by the source regexes -/

/-- The character class `[a-zA-Z0-9_]` of the source regexes. -/
def isIdentChar (c : Char) : Bool := c.isAlphanum || c = '_'

/-- The character class `[a-zA-Z0-9_.]` used for the FROM-clause table path. -/
def isIdentDotChar (c : Char) : Bool := isIdentChar c || c = '.'

/-- Quote characters `'` and `"` from the alias regex class (code points 39 and 34). -/
def isQuoteChar (c : Char) : Bool := c.toNat = 39 || c.toNat = 34

/-- Case-insensitive starts-with, the `i` flag of the source regexes. -/
def startsWithCI : List Char → List Char → Bool
  | [], _ => true
  | _ :: _, [] => false
  | p :: ps, c :: cs => (p.toLower = c.toLower) && startsWithCI ps cs

/-! ### Whitespace normalization (`parseSqlTemplate`, sql-parser.ts)

The source applies, in order: `.trim()`, `.replace(/\s+/g, ' ')`,
`.replace(/\s*,\s*/g, ', ')`, `.replace(/\s*\(\s*/g, '(')`,
`.replace(/\s*\)\s*/g, ')')`. -/

/-- `String.prototype.trim`: strip leading and trailing whitespace. -/
def trimChars (l : List Char) : List Char :=
  ((l.dropWhile Char.isWhitespace).reverse.dropWhile Char.isWhitespace).reverse

/-- Scan for `/\s+/g → " "`: `flag` records whether the previous character was
whitespace (i.e. we are inside a run that already emitted its single space). -/
def collapseWsAux : Bool → List Char → List Char
  | _, [] => []
  | flag, c :: cs =>
    if Char.isWhitespace c then
      if flag then collapseWsAux true cs else ' ' :: collapseWsAux true cs
    else c :: collapseWsAux false cs

/-- `.replace(/\s+/g, ' ')`: every maximal whitespace run becomes one space. -/
def collapseWs (l : List Char) : List Char := collapseWsAux false l

/-- One pass of `.replace(/\s*X\s*/g, repl)` for a single non-whitespace
character `X` (`,`, `(` or `)`).  The scan keeps the pending whitespace run in
`pend` (reversed); when the run is followed by `t` the whole match is replaced
by `r` and the trailing `\s*` is consumed in mode `true`, otherwise the run is
flushed verbatim.  This is exactly the leftmost-match behaviour of the JS
global replace for these patterns, since a match must contain `t` and `\s*` is
forced to the maximal whitespace run around it. -/
def nwRun (t : Char) (r : List Char) : Bool → List Char → List Char → List Char
  | _, pend, [] => pend.reverse
  | true, _, c :: cs =>
    if Char.isWhitespace c then nwRun t r true [] cs
    else if c = t then r ++ nwRun t r true [] cs
    else c :: nwRun t r false [] cs
  | false, pend, c :: cs =>
    if Char.isWhitespace c then nwRun t r false (c :: pend) cs
    else if c = t then r ++ nwRun t r true [] cs
    else pend.reverse ++ c :: nwRun t r false [] cs

/-- The whole whitespace-normalization pipeline of `parseSqlTemplate`. -/
def normalizeSql (l : List Char) : List Char :=
  nwRun ')' [')'] false []
    (nwRun '(' ['('] false []
      (nwRun ',' [',', ' '] false []
        (collapseWs (trimChars l))))

/-! ### Interleaving (the loop of `parseSqlTemplate`) -/

/-- The interleaving loop: append each literal segment, and after segment `i`
(while `i < values.length`) append one `'?'` and push `values[i]`. -/
def buildSqlChars {V : Type} : List (List Char) → List V → List Char × List V
  | [], _ => ([], [])
  | s :: ss, [] =>
    let r := buildSqlChars ss ([] : List V)
    (s ++ r.1, r.2)
  | s :: ss, v :: vs =>
    let r := buildSqlChars ss vs
    (s ++ '?' :: r.1, v :: r.2)

/-! ### Metadata extraction (`extractMetadata`, sql-parser.ts) -/

def fromKw : List Char := ['f', 'r', 'o', 'm']

def selectKw : List Char := ['s', 'e', 'l', 'e', 'c', 't']

/-- Try the regex `/FROM\s+([a-zA-Z0-9_.]+)/i` anchored at the head of `l`:
the four letters, at least one whitespace, then the maximal nonempty
`[a-zA-Z0-9_.]` run is captured. -/
def matchFromAt (l : List Char) : Option (List Char) :=
  if startsWithCI fromKw l then
    match l.drop 4 with
    | c :: cs =>
      if Char.isWhitespace c then
        let tbl := ((c :: cs).dropWhile Char.isWhitespace).takeWhile isIdentDotChar
        if tbl.isEmpty then none else some tbl
      else none
    | [] => none
  else none

/-- Leftmost match of `/FROM\s+([a-zA-Z0-9_.]+)/i` over the string. -/
def findFromTable : List Char → Option (List Char)
  | [] => none
  | c :: cs =>
    match matchFromAt (c :: cs) with
    | some t => some t
    | none => findFromTable cs

/-- Lazy scan for the end of `(.*?)` in `/SELECT\s+(.*?)\s+FROM/is`: find the
earliest position whose character is whitespace and whose maximal whitespace
run is followed by `FROM` (case-insensitively); everything scanned so far is
the captured group. -/
def scanSelectCols : List Char → List Char → Option (List Char)
  | _, [] => none
  | acc, c :: cs =>
    if Char.isWhitespace c && startsWithCI fromKw (List.dropWhile Char.isWhitespace (c :: cs)) then
      some acc.reverse
    else scanSelectCols (c :: acc) cs

/-- Try `/SELECT\s+(.*?)\s+FROM/is` anchored at the head of `l`.  With the
greedy `\s+` after `SELECT` the lazy group starts after the maximal whitespace
run; if no completion exists there, backtracking shrinks that `\s+` by one,
which succeeds with an empty group exactly when `FROM` sits directly at the
end of the run. -/
def matchSelectAt (l : List Char) : Option (List Char) :=
  if startsWithCI selectKw l then
    match l.drop 6 with
    | c :: cs =>
      if Char.isWhitespace c then
        let afterRun := List.dropWhile Char.isWhitespace (c :: cs)
        match scanSelectCols [] afterRun with
        | some g => some g
        | none => if startsWithCI fromKw afterRun then some [] else none
      else none
    | [] => none
  else none

/-- Leftmost match of `/SELECT\s+(.*?)\s+FROM/is` over the string. -/
def findSelectCols : List Char → Option (List Char)
  | [] => none
  | c :: cs =>
    match matchSelectAt (c :: cs) with
    | some g => some g
    | none => findSelectCols cs

/-- The alias regex `/\s+(?:AS\s+)?["']?([a-zA-Z0-9_]+)["']?\s*$/i`, reduced to
its end-anchored normal form: after stripping trailing whitespace and one
optional quote, the capture is the maximal trailing identifier run, which must
be preceded (after one more optional quote) by at least one whitespace
character.  The optional `AS\s+` never changes the captured group since its
own trailing `\s+` already provides the required whitespace. -/
def aliasOf (col : List Char) : Option (List Char) :=
  let r0 := col.reverse.dropWhile Char.isWhitespace
  let r1 := match r0 with
    | c :: cs => if isQuoteChar c then cs else r0
    | [] => r0
  let ident := r1.takeWhile isIdentChar
  let rest := r1.dropWhile isIdentChar
  if ident.isEmpty then none
  else
    let rest2 := match rest with
      | c :: cs => if isQuoteChar c then cs else rest
      | [] => rest
    match rest2 with
    | c :: _ => if Char.isWhitespace c then some ident.reverse else none
    | [] => none

/-- The fallback regex `/([a-zA-Z0-9_]+)\s*$/`: maximal trailing identifier
run before optional trailing whitespace. -/
def trailingIdent (col : List Char) : Option (List Char) :=
  let ident := (col.reverse.dropWhile Char.isWhitespace).takeWhile isIdentChar
  if ident.isEmpty then none else some ident.reverse

/-- Per-entry column-name extraction in `extractMetadata`: alias first, then
trailing identifier, then the trimmed raw entry. -/
def columnName (col : List Char) : List Char :=
  match aliasOf col with
  | some a => a
  | none =>
    match trailingIdent col with
    | some i => i
    | none => trimChars col

/-- `String.prototype.split(',')`. -/
def splitOnComma : List Char → List (List Char)
  | [] => [[]]
  | c :: cs =>
    if c = ',' then [] :: splitOnComma cs
    else
      match splitOnComma cs with
      | g :: gs => (c :: g) :: gs
      | [] => [[c]]

/-- The metadata record of `ParsedQuery` (the `types` field of the source is
never assigned and is omitted). -/
structure QueryMetadata where
  table : Option String
  columns : Option (List String)
deriving DecidableEq

/-- `extractMetadata(sql)`: FROM-clause table path, and the SELECT list split
on commas with alias extraction, unless the selection is a bare `*`. -/
def extractMetadata (sqlStr : String) : QueryMetadata :=
  let l := sqlStr.data
  { table := (findFromTable l).map fun t => String.mk t
    columns :=
      match findSelectCols l with
      | none => none
      | some colsPart =>
        if trimChars colsPart = ['*'] then none
        else
          some ((((splitOnComma colsPart).map fun c => String.mk (columnName c)).filter
            fun s => s ≠ "")) }

/-- The compiled query: final SQL, ordered parameters, extracted metadata. -/
structure ParsedQuery (V : Type) where
  sql : String
  params : List V
  metadata : QueryMetadata
deriving DecidableEq

/-- `parseSqlTemplate(strings, values, options)`: interleave, then normalize
whitespace (when `normalizeWhitespace`, the default used by the `sql` tag),
then extract metadata from the resulting SQL. -/
def parseSqlTemplate {V : Type} (strings : List String) (values : List V)
    (normalizeWhitespace : Bool) : ParsedQuery V :=
  let r := buildSqlChars (strings.map String.data) values
  let sqlStr :=
    if normalizeWhitespace then String.mk (normalizeSql r.1) else String.mk (trimChars r.1)
  { sql := sqlStr, params := r.2, metadata := extractMetadata sqlStr }

example :
    (parseSqlTemplate ["SELECT a, b FROM t WHERE x = ", ""] [(5 : Int)] true).sql =
      "SELECT a, b FROM t WHERE x = ?" := by decide

example :
    (parseSqlTemplate ["SELECT a, b FROM t WHERE x = ", ""] [(5 : Int)] true).metadata =
      { table := some "t", columns := some ["a", "b"] } := by decide

/-! ### SQL validation (`validateSql`, sql-parser.ts) -/

def dropKw : List Char := ['d', 'r', 'o', 'p']

def deleteKw : List Char := ['d', 'e', 'l', 'e', 't', 'e']

def truncateKw : List Char := ['t', 'r', 'u', 'n', 'c', 'a', 't', 'e']

def alterKw : List Char := ['a', 'l', 't', 'e', 'r']

/-- Match a sequence of keywords each followed by `\s+` (the next keyword, if
any, starts right after the maximal whitespace run). -/
def matchKwSeq : List Char → List (List Char) → Bool
  | _, [] => true
  | l, kw :: rest =>
    startsWithCI kw l &&
      (match l.drop kw.length with
       | c :: cs =>
         Char.isWhitespace c && matchKwSeq (List.dropWhile Char.isWhitespace (c :: cs)) rest
       | [] => false)

/-- A dangerous pattern `/;\s*KW₁\s+(KW₂\s+)?/i` anchored at the head of `l`. -/
def dangerAt (kws : List (List Char)) : List Char → Bool
  | ';' :: rest => matchKwSeq (rest.dropWhile Char.isWhitespace) kws
  | _ => false

/-- `RegExp.prototype.test`: a match exists at some position. -/
def existsAt (p : List Char → Bool) : List Char → Bool
  | [] => p []
  | c :: cs => p (c :: cs) || existsAt p cs

/-- The `dangerousPatterns` table: keyword sequence and description, in source
order. -/
def dangerousPatterns : List (List (List Char) × String) :=
  [ ([dropKw], "DROP statement after semicolon"),
    ([deleteKw, fromKw], "DELETE statement after semicolon"),
    ([truncateKw], "TRUNCATE statement after semicolon"),
    ([alterKw], "ALTER statement after semicolon") ]

/-- The error message pushed for a detected dangerous pattern. -/
def dangerMessage (description : String) : String :=
  "Potentially dangerous SQL pattern detected: " ++ description ++
    ". If this is intentional, use \x7b skipDangerousPatternCheck: true \x7d"

/-- Options of `validateSql` (source default: `false`). -/
structure ValidateOptions where
  skipDangerousPatternCheck : Bool
deriving DecidableEq

/-- Result of `validateSql`. -/
structure ValidationResult where
  valid : Bool
  errors : List String
deriving DecidableEq

/-- The balanced-parenthesis scan: running depth, `+1` on `(`, `-1` on `)`;
push "Unbalanced parentheses" and break as soon as the depth is negative, and
push the same message if the depth is positive after the full scan. -/
def parenScan : Int → List Char → List String
  | d, [] => if d > 0 then ["Unbalanced parentheses"] else []
  | d, c :: cs =>
    let d1 := if c = '(' then d + 1 else d
    let d2 := if c = ')' then d1 - 1 else d1
    if d2 < 0 then ["Unbalanced parentheses"] else parenScan d2 cs

/-- `validateSql(sql, options)`: dangerous-pattern messages (unless skipped),
then parenthesis balance; `valid` iff no error accumulated. -/
def validateSql (sqlStr : String) (options : ValidateOptions) : ValidationResult :=
  let dangerErrors :=
    if options.skipDangerousPatternCheck then []
    else
      (dangerousPatterns.filter fun p => existsAt (dangerAt p.1) sqlStr.data).map
        fun p => dangerMessage p.2
  let errors := dangerErrors ++ parenScan 0 sqlStr.data
  { valid := errors.isEmpty, errors := errors }

/-- The `sql` tagged-template entry point (query.ts): parse, validate with
default options, throw (modelled as `Except.error` carrying the exact message)
when invalid, otherwise return the query object wrapping the parsed query. -/
def sql {V : Type} (strings : List String) (values : List V) : Except String (ParsedQuery V) :=
  let parsed := parseSqlTemplate strings values true
  let validation := validateSql parsed.sql ⟨false⟩
  if validation.valid then Except.ok parsed
  else
    Except.error
      ("Invalid SQL query:\n" ++ String.intercalate "\n" validation.errors ++
        "\nSQL: " ++ parsed.sql)

example :
    validateSql "SELECT * FROM t; DROP TABLE t;" ⟨false⟩ =
      { valid := false, errors := [dangerMessage "DROP statement after semicolon"] } := by
  decide

example : (validateSql "SELECT * FROM t; DROP TABLE t;" ⟨true⟩).valid = true := by decide

example :
    validateSql "SELECT * FROM t WHERE id IN (1,2,3" ⟨false⟩ =
      { valid := false, errors := ["Unbalanced parentheses"] } := by decide

example :
    validateSql "SELECT * FROM t WHERE id IN 1,2,3)" ⟨false⟩ =
      { valid := false, errors := ["Unbalanced parentheses"] } := by decide

/-! ### Schema introspector (introspector.ts) -/

/-- A row of `INFORMATION_SCHEMA.TABLES` (`TableInfo`, schema/src/types.ts). -/
structure TableInfo where
  table_catalog : String
  table_schema : String
  table_name : String
  table_type : String
  comment : Option String
deriving DecidableEq

/-- A row of `INFORMATION_SCHEMA.COLUMNS` (`ColumnInfo`, schema/src/types.ts).
`is_nullable` is the catalog's literal `"YES"`/`"NO"` string. -/
structure ColumnInfo where
  table_catalog : String
  table_schema : String
  table_name : String
  column_name : String
  ordinal_position : Nat
  column_default : Option String
  is_nullable : String
  data_type : String
  character_maximum_length : Option Nat
  numeric_precision : Option Nat
  numeric_scale : Option Nat
  comment : Option String
deriving DecidableEq

/-- The casing heuristic of `getTables`/`getColumns`: an identifier differing
from its upper-cased form (i.e. containing a lowercase letter) is treated as a
quoted identifier and preserved, otherwise it is upper-cased. -/
def resolveIdentifierCasing (s : List Char) : List Char :=
  if s.map Char.toUpper ≠ s then s else s.map Char.toUpper

/-- `matchPattern`: the pattern is compiled by `\*` → `.*` and `\?` → `.` into
an anchored case-insensitive regex.  For patterns built from `*`, `?` and
literal (non-regex-metacharacter) characters this is glob matching: `*` is any
run of characters including the empty one, `?` exactly one character, literals
compare case-insensitively, anchored at both ends. -/
def globMatch : List Char → List Char → Bool
  | [], v => v.isEmpty
  | '*' :: ps, v => v.tails.any fun s => globMatch ps s
  | '?' :: ps, v =>
    match v with
    | [] => false
    | _ :: vs => globMatch ps vs
  | p :: ps, v =>
    match v with
    | [] => false
    | c :: vs => (p.toLower = c.toLower) && globMatch ps vs

/-- `matchPattern(value, pattern)` on strings. -/
def matchPattern (value : String) (pattern : String) : Bool :=
  globMatch pattern.data value.data

/-- The include/exclude filtering of `getTables`: the include filter keeps a
table iff some include pattern matches its bare `table_name`, then the exclude
filter drops it iff some exclude pattern matches; a missing or empty pattern
list leaves the rows untouched. -/
def applyTableFilters (tables : List TableInfo)
    (includeTables excludeTables : Option (List String)) : List TableInfo :=
  let t1 :=
    match includeTables with
    | some pats =>
      if pats.length > 0 then
        tables.filter fun t => pats.any fun p => matchPattern t.table_name p
      else tables
    | none => tables
  match excludeTables with
  | some pats =>
    if pats.length > 0 then
      t1.filter fun t => !(pats.any fun p => matchPattern t.table_name p)
    else t1
  | none => t1

/-- One step of the `tablesBySchema` map construction in `getAllColumns`: a
JS `Map` keeps insertion order, and `push` appends to the schema's array. -/
def addTableToGroups (acc : List (String × List String)) (t : TableInfo) :
    List (String × List String) :=
  if acc.any fun p => p.1 = t.table_schema then
    acc.map fun p => if p.1 = t.table_schema then (p.1, p.2 ++ [t.table_name]) else p
  else acc ++ [(t.table_schema, [t.table_name])]

/-- The grouping loop of `getAllColumns`. -/
def groupTablesBySchema (tables : List TableInfo) : List (String × List String) :=
  tables.foldl addTableToGroups []

/-- `getAllColumns`, abstracted over the per-schema column query
`getColumns schema tableNames` (the injected executor, applied to the
`getTables` result): one `getColumns` call per group, results concatenated in
group order. -/
def getAllColumns {A : Type} (getColumns : String → List String → List A)
    (tables : List TableInfo) : List A :=
  (groupTablesBySchema tables).flatMap fun p => getColumns p.1 p.2

/-- Append a string to the accumulator unless already present. -/
def addFirstOccurrence (acc : List String) (s : String) : List String :=
  if s ∈ acc then acc else acc ++ [s]

/-- The distinct schemas of a list, in first-encountered order (specification
side of the batching claim). -/
def firstOccurrences (l : List String) : List String :=
  l.foldl addFirstOccurrence []

/-- The specification-side grouping: one entry per distinct schema in
first-encountered order, carrying that schema's table names in input order. -/
def schemaGroupsSpec (tables : List TableInfo) : List (String × List String) :=
  (firstOccurrences (tables.map TableInfo.table_schema)).map fun s =>
    (s, (tables.filter fun t => t.table_schema = s).map TableInfo.table_name)

example : globMatch "EVENTS*".data "EVENTS_RAW".data = true := by decide
example : globMatch "EVENTS*".data "USER_EVENTS".data = false := by decide
example : globMatch "*_TEMP".data "STAGING_TEMP".data = true := by decide
example : globMatch "*_TEMP".data "STAGING_TEMPLATE".data = false := by decide
example : globMatch "a?c".data "AbC".data = true := by decide

/-! ### Declaration generator (`TypeGenerator`, type-generator.ts) -/

/-- The built-in Snowflake-to-TypeScript mapping table of the `TypeGenerator`
constructor, as an association list (the JS object with these distinct keys). -/
def defaultTypeMappings : List (String × String) :=
  [ ("NUMBER", "number"), ("DECIMAL", "number"), ("NUMERIC", "number"),
    ("INT", "number"), ("INTEGER", "number"), ("BIGINT", "number"),
    ("SMALLINT", "number"), ("TINYINT", "number"), ("BYTEINT", "number"),
    ("FLOAT", "number"), ("FLOAT4", "number"), ("FLOAT8", "number"),
    ("DOUBLE", "number"), ("DOUBLE PRECISION", "number"), ("REAL", "number"),
    ("VARCHAR", "string"), ("CHAR", "string"), ("CHARACTER", "string"),
    ("STRING", "string"), ("TEXT", "string"), ("BINARY", "string"),
    ("VARBINARY", "string"), ("BOOLEAN", "boolean"), ("DATE", "Date"),
    ("DATETIME", "Date"), ("TIME", "Date"), ("TIMESTAMP", "Date"),
    ("TIMESTAMP_LTZ", "Date"), ("TIMESTAMP_NTZ", "Date"), ("TIMESTAMP_TZ", "Date"),
    ("VARIANT", "JsonValue"), ("OBJECT", "JsonObject"), ("ARRAY", "JsonArray"),
    ("GEOGRAPHY", "string"), ("GEOMETRY", "string") ]

/-- Key lookup in an association list (JS object property access, keys
distinct). -/
def lookupType : List (String × String) → String → Option String
  | [], _ => none
  | (k, v) :: rest, key => if k = key then some v else lookupType rest key

/-- Lookup in `{ ...defaultMappings, ...typeMapping }`: a caller override with
the same key replaces the built-in entry. -/
def mergedLookup (overrides : List (String × String)) (key : String) : Option String :=
  match lookupType overrides key with
  | some v => some v
  | none => lookupType defaultTypeMappings key

/-- The key computation of `mapType`: upper-case, strip everything from the
first `(` (via `split('(')[0]`), trim. -/
def baseTypeOf (snowflakeType : String) : String :=
  String.mk (trimChars ((snowflakeType.data.map Char.toUpper).takeWhile fun c => c ≠ '('))

/-- `mapType`: look the stripped upper-cased base name up in the merged table,
defaulting to `"unknown"` (the JS `||` also maps an empty-string entry to
`"unknown"`). -/
def mapType (overrides : List (String × String)) (snowflakeType : String) : String :=
  match mergedLookup overrides (baseTypeOf snowflakeType) with
  | some v => if v = "" then "unknown" else v
  | none => "unknown"

/-- The global replace `/_([a-z])/g → capitalized letter` of `toCamelCase`:
an underscore followed by a lowercase letter is dropped and the letter
upper-cased; any other underscore is kept verbatim. -/
def replUnderscore : List Char → List Char
  | [] => []
  | c :: cs =>
    if c = '_' then
      match cs with
      | [] => ['_']
      | d :: ds =>
        if d.isLower then Char.toUpper d :: replUnderscore ds
        else '_' :: replUnderscore (d :: ds)
    else c :: replUnderscore cs

/-- `toCamelCase`: lower-case everything, then replace `_([a-z])` globally. -/
def toCamelCase (str : List Char) : List Char := replUnderscore (str.map Char.toLower)

/-- `toPascalCase`: `toCamelCase`, then upper-case the first character. -/
def toPascalCase (str : List Char) : List Char :=
  match toCamelCase str with
  | [] => []
  | c :: cs => Char.toUpper c :: cs

/-- JS `x || undefined` on an optional string: `null` and `""` become absent. -/
def orUndefined : Option String → Option String
  | none => none
  | some s => if s = "" then none else some s

/-- A generated record property (`GeneratedProperty`). -/
structure GeneratedProperty where
  name : String
  type : String
  nullable : Bool
  comment : Option String
deriving DecidableEq

/-- A generated record (`GeneratedInterface`). -/
structure GeneratedInterface where
  name : String
  tableName : String
  schema : String
  properties : List GeneratedProperty
  comment : Option String
deriving DecidableEq

/-- `generateInterface(table, columns)` of a `TypeGenerator` constructed with
`overrides`: one property per column, in column order. -/
def generateInterface (overrides : List (String × String)) (table : TableInfo)
    (columns : List ColumnInfo) : GeneratedInterface :=
  { name := String.mk (toPascalCase table.table_name.data)
    tableName := table.table_name
    schema := table.table_schema
    properties := columns.map fun col =>
      { name := String.mk (toCamelCase col.column_name.data)
        type := mapType overrides col.data_type
        nullable := col.is_nullable = "YES"
        comment := orUndefined col.comment }
    comment := orUndefined table.comment }

/-- `generateInterfaceCode(iface)`: the emitted TypeScript declaration text;
a nullable column is rendered as a `| null` union, never as an optional `?`
property. -/
def generateInterfaceCode (iface : GeneratedInterface) : String :=
  (match iface.comment with
   | some c => "/**\n * " ++ c ++ "\n */\n"
   | none => "") ++
  "export interface " ++ iface.name ++ " \x7b\n" ++
  String.join (iface.properties.map fun p =>
    (match p.comment with
     | some c => "  /** " ++ c ++ " */\n"
     | none => "") ++
    "  " ++ p.name ++ ": " ++ p.type ++ (if p.nullable then " | null" else "") ++ ";\n") ++
  "\x7d\n"

/-! ### Specification-side casing conversion (for the refinement claim C3)

The spec describes the conversion as: split on `_`, lower-case each segment,
capitalize the first letter of each segment (all but the first for
lower-camel), concatenate. -/

/-- `String.prototype.split('_')`. -/
def splitOnUnderscore : List Char → List (List Char)
  | [] => [[]]
  | c :: cs =>
    if c = '_' then [] :: splitOnUnderscore cs
    else
      match splitOnUnderscore cs with
      | g :: gs => (c :: g) :: gs
      | [] => [[c]]

/-- Modelled from the spec: lower-case a segment and capitalize its first
letter. -/
def capitalizeSegment (seg : List Char) : List Char :=
  match seg.map Char.toLower with
  | [] => []
  | c :: cs => Char.toUpper c :: cs

/-- Modelled from the spec: the claimed lower-camel conversion — split on
`_`, first segment lower-cased entirely, subsequent segments lower-cased and
capitalized, concatenated. -/
def specLowerCamel (l : List Char) : List Char :=
  match splitOnUnderscore l with
  | [] => []
  | s :: ss => s.map Char.toLower ++ (ss.map capitalizeSegment).flatten

/-- Modelled from the spec: the claimed upper-camel (PascalCase) conversion —
split on `_`, lower-case each segment, capitalize its first letter,
concatenate. -/
def specUpperCamel (l : List Char) : List Char :=
  ((splitOnUnderscore l).map capitalizeSegment).flatten

/-- Every underscore is immediately followed by an ASCII letter: on such
identifiers the source conversion and the spec's split-based description
agree. -/
def underscoresFollowedByLetter : List Char → Bool
  | [] => true
  | c :: cs =>
    if c = '_' then
      match cs with
      | [] => false
      | d :: _ => d.isAlpha && underscoresFollowedByLetter cs
    else underscoresFollowedByLetter cs

example : toCamelCase "USER_ID".data = "userId".data := by decide
example : toPascalCase "USERS".data = "Users".data := by decide
example : toCamelCase "COL_1".data = "col_1".data := by decide
example : specLowerCamel "COL_1".data = "col1".data := by decide
example : specLowerCamel "USER_ID".data = "userId".data := by decide
example : mapType [] "VARCHAR(255)" = "string" := by decide
example : mapType [] "NUMBER(38,2)" = "number" := by decide
example : mapType [] "FOOBAR" = "unknown" := by decide

/-! ### Claim theorems -/

/-- C2: compiling the template `["SELECT a, b FROM t WHERE x = ", ""]` with
the single interleaved value `5` yields exactly the SQL
`"SELECT a, b FROM t WHERE x = ?"`, parameter list `[5]`, metadata table
`"t"` and metadata columns `["a", "b"]`. -/
theorem parseSqlTemplate_round_trip :
    parseSqlTemplate ["SELECT a, b FROM t WHERE x = ", ""] [(5 : Int)] true =
      { sql := "SELECT a, b FROM t WHERE x = ?"
        params := [5]
        metadata := { table := some "t", columns := some ["a", "b"] } } := by
  decide

/-- C6: `validate("SELECT * FROM t; DROP TABLE t;")` is invalid with exactly
the dangerous-DROP-pattern error; with `skipDangerousPatternCheck` set the
same input is accepted, and in general only the parenthesis-balance check
runs then; the four destructive keywords carry pairwise distinct messages. -/
theorem validateSql_dangerous_drop :
    (validateSql "SELECT * FROM t; DROP TABLE t;" ⟨false⟩).valid = false ∧
    (validateSql "SELECT * FROM t; DROP TABLE t;" ⟨false⟩).errors =
      [dangerMessage "DROP statement after semicolon"] ∧
    (validateSql "SELECT * FROM t; DROP TABLE t;" ⟨true⟩).valid = true ∧
    (∀ s : String, (validateSql s ⟨true⟩).errors = parenScan 0 s.data) ∧
    (dangerousPatterns.map fun p => dangerMessage p.2).Nodup := by
  refine ⟨by decide, by decide, by decide, fun s => rfl, by decide⟩

/-- C7: the validator's parenthesis check is a running-depth scan that reports
"Unbalanced parentheses" on a negative depth or a positive final depth, so
both `"SELECT * FROM t WHERE id IN (1,2,3"` (positive final depth) and
`"SELECT * FROM t WHERE id IN 1,2,3)"` (depth goes negative) are invalid with
exactly that error. -/
theorem validateSql_unbalanced_parens :
    validateSql "SELECT * FROM t WHERE id IN (1,2,3" ⟨false⟩ =
      { valid := false, errors := ["Unbalanced parentheses"] } ∧
    validateSql "SELECT * FROM t WHERE id IN 1,2,3)" ⟨false⟩ =
      { valid := false, errors := ["Unbalanced parentheses"] } := by
  exact ⟨by decide, by decide⟩

/-! ### ASCII character facts used by the proofs -/

theorem char_toNat_ofNat {n : Nat} (h : n < 55296) : (Char.ofNat n).toNat = n := by
  have hv : n.isValidChar := Or.inl h
  simp [Char.ofNat, hv, Char.ofNatAux, Char.toNat, UInt32.toNat]

theorem isLower_iff {c : Char} : c.isLower = true ↔ 97 ≤ c.toNat ∧ c.toNat ≤ 122 := by
  simp [Char.isLower]
  exact Iff.rfl

theorem isUpper_iff {c : Char} : c.isUpper = true ↔ 65 ≤ c.toNat ∧ c.toNat ≤ 90 := by
  simp [Char.isUpper]
  exact Iff.rfl

theorem isDigit_iff {c : Char} : c.isDigit = true ↔ 48 ≤ c.toNat ∧ c.toNat ≤ 57 := by
  simp [Char.isDigit]
  exact Iff.rfl

theorem toUpper_of_lower {c : Char} (h : c.isLower = true) :
    (Char.toUpper c).toNat = c.toNat - 32 := by
  obtain ⟨h1, h2⟩ := isLower_iff.mp h
  simp only [Char.toUpper]
  rw [if_pos ⟨h1, h2⟩]
  exact char_toNat_ofNat (by omega)

theorem toUpper_eq_self {c : Char} (h : c.isLower = false) : Char.toUpper c = c := by
  simp only [Char.toUpper]
  rw [if_neg]
  intro hcon
  have hl : c.isLower = true := isLower_iff.mpr ⟨hcon.1, hcon.2⟩
  rw [h] at hl
  exact Bool.false_ne_true hl

theorem toUpper_ne_self {c : Char} (h : c.isLower = true) : Char.toUpper c ≠ c := by
  intro hcon
  have h2 := toUpper_of_lower h
  rw [hcon] at h2
  obtain ⟨h1, _⟩ := isLower_iff.mp h
  omega

theorem toLower_of_upper {c : Char} (h : c.isUpper = true) :
    (Char.toLower c).toNat = c.toNat + 32 := by
  obtain ⟨h1, h2⟩ := isUpper_iff.mp h
  simp only [Char.toLower]
  rw [if_pos ⟨h1, h2⟩]
  exact char_toNat_ofNat (by omega)

theorem toLower_eq_self {c : Char} (h : c.isUpper = false) : Char.toLower c = c := by
  simp only [Char.toLower]
  rw [if_neg]
  intro hcon
  have hu : c.isUpper = true := isUpper_iff.mpr ⟨hcon.1, hcon.2⟩
  rw [h] at hu
  exact Bool.false_ne_true hu

theorem char_toNat_inj {c d : Char} (h : c.toNat = d.toNat) : c = d :=
  Char.ext (UInt32.ext h)

theorem toLower_isLower_of_alpha {c : Char} (h : c.isAlpha = true) :
    (Char.toLower c).isLower = true := by
  simp [Char.isAlpha] at h
  rcases h with h | h
  · rw [isLower_iff, toLower_of_upper h]
    obtain ⟨h1, h2⟩ := isUpper_iff.mp h
    omega
  · rw [toLower_eq_self]
    · exact h
    · obtain ⟨h1, h2⟩ := isLower_iff.mp h
      by_contra hcon
      simp at hcon
      obtain ⟨g1, g2⟩ := isUpper_iff.mp hcon
      omega

theorem map_eq_self_of_fixes {f : Char → Char} :
    ∀ l : List Char, (∀ c ∈ l, f c = c) → l.map f = l := by
  intro l h
  induction l with
  | nil => rfl
  | cons a l ih =>
    simp only [List.map_cons]
    rw [h a (by simp), ih fun c hc => h c (by simp [hc])]

theorem fixes_of_map_eq_self {f : Char → Char} :
    ∀ l : List Char, l.map f = l → ∀ c ∈ l, f c = c := by
  intro l
  induction l with
  | nil => intro _ c hc; cases hc
  | cons a l ih =>
    intro h c hc
    simp only [List.map_cons, List.cons.injEq] at h
    rcases List.mem_cons.mp hc with rfl | hc
    · exact h.1
    · exact ih h.2 c hc

/-- C9: the Casing Resolver passes an identifier through unchanged whenever it
contains a lowercase character, upper-cases it otherwise, and in particular
returns any identifier of upper-case letters, digits and underscores
unchanged. -/
theorem resolveIdentifierCasing_spec (s : List Char) :
    ((∃ c ∈ s, c.isLower = true) → resolveIdentifierCasing s = s) ∧
    ((∀ c ∈ s, c.isLower = false) → resolveIdentifierCasing s = s.map Char.toUpper) ∧
    ((∀ c ∈ s, c.isUpper = true ∨ c.isDigit = true ∨ c = '_') →
      resolveIdentifierCasing s = s) := by
  refine ⟨?_, ?_, ?_⟩
  · rintro ⟨c, hc, hlow⟩
    have hne : s.map Char.toUpper ≠ s := by
      intro heq
      exact toUpper_ne_self hlow (fixes_of_map_eq_self s heq c hc)
    simp only [resolveIdentifierCasing, if_pos (by simpa using hne)]
  · intro h
    have heq : s.map Char.toUpper = s :=
      map_eq_self_of_fixes s fun c hc => toUpper_eq_self (h c hc)
    simp only [resolveIdentifierCasing, heq]
    simp
  · intro h
    have hfix : ∀ c ∈ s, Char.toUpper c = c := by
      intro c hc
      apply toUpper_eq_self
      rcases h c hc with hu | hd | rfl
      · obtain ⟨h1, h2⟩ := isUpper_iff.mp hu
        by_contra hcon
        simp at hcon
        obtain ⟨g1, g2⟩ := isLower_iff.mp hcon
        omega
      · obtain ⟨h1, h2⟩ := isDigit_iff.mp hd
        by_contra hcon
        simp at hcon
        obtain ⟨g1, g2⟩ := isLower_iff.mp hcon
        omega
      · decide
    have heq : s.map Char.toUpper = s := map_eq_self_of_fixes s hfix
    simp only [resolveIdentifierCasing, heq]
    simp

/-- Witness for C9 at the identifier `USER_ID`. -/
theorem resolveIdentifierCasing_spec_witness :
    resolveIdentifierCasing "USER_ID".data = "USER_ID".data :=
  (resolveIdentifierCasing_spec "USER_ID".data).2.2 (by decide)

theorem takeWhile_until_paren :
    ∀ (a b : List Char),
      (a ++ '(' :: b).takeWhile (fun c => c ≠ '(') = a.takeWhile fun c => c ≠ '(' := by
  intro a b
  induction a with
  | nil => simp [List.takeWhile_cons]
  | cons x a ih =>
    simp only [List.cons_append, List.takeWhile_cons]
    by_cases hx : x = '('
    · simp [hx]
    · simp [hx]
      simpa using ih

theorem baseTypeOf_paren (t suffix : String) : baseTypeOf (t ++ "(" ++ suffix) = baseTypeOf t := by
  unfold baseTypeOf
  congr 1
  congr 1
  have hdata : (t ++ "(" ++ suffix).data = t.data ++ '(' :: suffix.data := by
    rw [String.data_append, String.data_append, List.append_assoc]
    rfl
  rw [hdata, List.map_append]
  have : (('(' :: suffix.data).map Char.toUpper) = '(' :: suffix.data.map Char.toUpper := by
    simp
  rw [this]
  exact takeWhile_until_paren _ _

/-- C4: `mapType` is insensitive to parameter suffixes
(`mapType (t ++ "(" ++ anything) = mapType t`, in particular
`mapType "VARCHAR(255)" = mapType "VARCHAR"`); lookup is on the upper-cased
base name with caller overrides taking precedence over built-ins, and the
sentinel `"unknown"` is returned when no entry exists. -/
theorem mapType_spec :
    (∀ (overrides : List (String × String)) (t suffix : String),
        mapType overrides (t ++ "(" ++ suffix) = mapType overrides t) ∧
    (∀ overrides : List (String × String),
        mapType overrides "VARCHAR(255)" = mapType overrides "VARCHAR") ∧
    (∀ (overrides : List (String × String)) (raw v : String),
        lookupType overrides (baseTypeOf raw) = some v → v ≠ "" →
        mapType overrides raw = v) ∧
    (∀ (overrides : List (String × String)) (raw : String),
        lookupType overrides (baseTypeOf raw) = none →
        lookupType defaultTypeMappings (baseTypeOf raw) = none →
        mapType overrides raw = "unknown") := by
  refine ⟨?_, ?_, ?_, ?_⟩
  · intro overrides t suffix
    unfold mapType
    rw [baseTypeOf_paren]
  · intro overrides
    have h : ("VARCHAR(255)" : String) = "VARCHAR" ++ "(" ++ "255)" := by decide
    rw [h]
    unfold mapType
    rw [baseTypeOf_paren]
  · intro overrides raw v hov hne
    unfold mapType mergedLookup
    rw [hov]
    simp [hne]
  · intro overrides raw hov hdef
    unfold mapType mergedLookup
    rw [hov, hdef]

/-- Witness for C4: a caller override takes precedence and an unmapped base
name yields the sentinel. -/
theorem mapType_spec_witness :
    mapType [("VARCHAR", "MyString")] "VARCHAR(255)" = "MyString" ∧
    mapType [] "FOOBAR" = "unknown" :=
  ⟨mapType_spec.2.2.1 [("VARCHAR", "MyString")] "VARCHAR(255)" "MyString" (by decide) (by decide),
   mapType_spec.2.2.2 [] "FOOBAR" (by decide) (by decide)⟩

/-- C5: table filtering keeps a row iff some include pattern matches its bare
table name and no exclude pattern does (include filter first, then exclude);
`*` matches any run, `?` one character, matching is case-insensitive and
anchored, so `EVENTS*` matches `EVENTS_RAW` but not `USER_EVENTS` and
`*_TEMP` matches `STAGING_TEMP` but not `STAGING_TEMPLATE`. -/
theorem getTables_filtering :
    globMatch "EVENTS*".data "EVENTS_RAW".data = true ∧
    globMatch "EVENTS*".data "USER_EVENTS".data = false ∧
    globMatch "*_TEMP".data "STAGING_TEMP".data = true ∧
    globMatch "*_TEMP".data "STAGING_TEMPLATE".data = false ∧
    globMatch "events*".data "EVENTS_RAW".data = true ∧
    (∀ (tables : List TableInfo) (inc exc : List String) (t : TableInfo),
        inc ≠ [] → exc ≠ [] →
        (t ∈ applyTableFilters tables (some inc) (some exc) ↔
          t ∈ tables ∧ (∃ p ∈ inc, matchPattern t.table_name p = true) ∧
            ¬∃ p ∈ exc, matchPattern t.table_name p = true)) := by
  refine ⟨by decide, by decide, by decide, by decide, by decide, ?_⟩
  intro tables inc exc t hinc hexc
  have hinclen : inc.length > 0 := List.length_pos.mpr hinc
  have hexclen : exc.length > 0 := List.length_pos.mpr hexc
  simp only [applyTableFilters, if_pos hinclen, if_pos hexclen]
  simp [List.mem_filter, List.any_eq_true, and_assoc]
  intro _
  tauto

/-- Witness for C5: `EVENTS_RAW` survives include `EVENTS*`, exclude `*_TEMP`. -/
theorem getTables_filtering_witness :
    (⟨"DB", "PUBLIC", "EVENTS_RAW", "BASE TABLE", none⟩ : TableInfo) ∈
      applyTableFilters [⟨"DB", "PUBLIC", "EVENTS_RAW", "BASE TABLE", none⟩]
        (some ["EVENTS*"]) (some ["*_TEMP"]) :=
  (getTables_filtering.2.2.2.2.2 [⟨"DB", "PUBLIC", "EVENTS_RAW", "BASE TABLE", none⟩]
      ["EVENTS*"] ["*_TEMP"] ⟨"DB", "PUBLIC", "EVENTS_RAW", "BASE TABLE", none⟩
      (by decide) (by decide)).mpr
    ⟨by decide, ⟨"EVENTS*", by decide, by decide⟩, by decide⟩

/-- C10: the `sql` tagged-template entry point returns the query object
wrapping the parsed query when `validateSql` accepts the compiled SQL, and
throws an error whose message contains the joined validator errors and the
compiled SQL when it does not — `validateSql` itself never throws, but an
invalid templated query never reaches execution through `sql`. -/
theorem sql_validation_gate {V : Type} (strings : List String) (values : List V) :
    ((validateSql (parseSqlTemplate strings values true).sql ⟨false⟩).valid = true →
      sql strings values = Except.ok (parseSqlTemplate strings values true)) ∧
    ((validateSql (parseSqlTemplate strings values true).sql ⟨false⟩).valid = false →
      ∃ msg : String,
        sql strings values = Except.error msg ∧
        (∃ a b : String,
          msg = a ++ String.intercalate "\n"
              (validateSql (parseSqlTemplate strings values true).sql ⟨false⟩).errors ++ b) ∧
        (∃ a : String, msg = a ++ (parseSqlTemplate strings values true).sql)) := by
  constructor
  · intro hvalid
    simp only [sql, hvalid]
    rfl
  · intro hinvalid
    refine ⟨"Invalid SQL query:\n" ++ String.intercalate "\n"
        (validateSql (parseSqlTemplate strings values true).sql ⟨false⟩).errors ++
        "\nSQL: " ++ (parseSqlTemplate strings values true).sql, ?_, ?_, ?_⟩
    · simp only [sql, hinvalid]
      rfl
    · exact ⟨"Invalid SQL query:\n", "\nSQL: " ++ (parseSqlTemplate strings values true).sql,
        by rw [String.append_assoc]⟩
    · exact ⟨"Invalid SQL query:\n" ++ String.intercalate "\n"
        (validateSql (parseSqlTemplate strings values true).sql ⟨false⟩).errors ++ "\nSQL: ", rfl⟩

/-- Witness for C10: an unbalanced template is rejected by `sql`, a balanced
one is returned as a query object. -/
theorem sql_validation_gate_witness :
    (∃ msg : String,
        sql ["(", ""] [(1 : Int)] = Except.error msg ∧
        (∃ a b : String,
          msg = a ++ String.intercalate "\n"
              (validateSql (parseSqlTemplate ["(", ""] [(1 : Int)] true).sql ⟨false⟩).errors ++ b) ∧
        (∃ a : String, msg = a ++ (parseSqlTemplate ["(", ""] [(1 : Int)] true).sql)) ∧
    sql ["SELECT ", ""] [(1 : Int)] =
      Except.ok (parseSqlTemplate ["SELECT ", ""] [(1 : Int)] true) :=
  ⟨(sql_validation_gate ["(", ""] [(1 : Int)]).2 (by decide),
   (sql_validation_gate ["SELECT ", ""] [(1 : Int)]).1 (by decide)⟩

/-! ### Placeholder counting (claim C1) -/

/-- Number of `'?'` characters in a character list. -/
def countQ : List Char → Nat
  | [] => 0
  | c :: cs => (if c = '?' then 1 else 0) + countQ cs

theorem countQ_append : ∀ a b : List Char, countQ (a ++ b) = countQ a + countQ b := by
  intro a b
  induction a with
  | nil => simp [countQ]
  | cons c a ih => simp [countQ, ih]; omega

theorem countQ_reverse : ∀ l : List Char, countQ l.reverse = countQ l := by
  intro l
  induction l with
  | nil => rfl
  | cons c l ih => simp [countQ, List.reverse_cons, countQ_append, ih]; omega

theorem ws_ne_q {c : Char} (h : Char.isWhitespace c = true) : c ≠ '?' := by
  intro hc
  subst hc
  simp [Char.isWhitespace] at h

theorem countQ_of_all_ws : ∀ l : List Char, (∀ c ∈ l, Char.isWhitespace c = true) →
    countQ l = 0 := by
  intro l h
  induction l with
  | nil => rfl
  | cons c l ih =>
    simp only [countQ]
    rw [if_neg (ws_ne_q (h c (by simp))), ih fun d hd => h d (by simp [hd])]

theorem countQ_dropWhile_ws : ∀ l : List Char,
    countQ (l.dropWhile Char.isWhitespace) = countQ l := by
  intro l
  induction l with
  | nil => rfl
  | cons c l ih =>
    by_cases hc : Char.isWhitespace c = true
    · rw [List.dropWhile_cons_of_pos hc, ih]
      simp [countQ, if_neg (ws_ne_q hc)]
    · rw [List.dropWhile_cons_of_neg (by simpa using hc)]

theorem countQ_trim (l : List Char) : countQ (trimChars l) = countQ l := by
  unfold trimChars
  rw [countQ_reverse, countQ_dropWhile_ws, countQ_reverse, countQ_dropWhile_ws]

theorem countQ_collapseAux : ∀ (l : List Char) (flag : Bool),
    countQ (collapseWsAux flag l) = countQ l := by
  intro l
  induction l with
  | nil => intro flag; rfl
  | cons c l ih =>
    intro flag
    by_cases hc : Char.isWhitespace c = true
    · simp only [collapseWsAux, hc, if_pos]
      cases flag with
      | true => simp [ih, countQ, if_neg (ws_ne_q hc)]
      | false => simp [countQ, ih, if_neg (ws_ne_q hc)]
    · simp only [collapseWsAux, hc]
      simp [countQ, ih]

theorem countQ_nwRun (t : Char) (r : List Char) (ht : t ≠ '?') (hr : countQ r = 0) :
    ∀ (l : List Char) (mode : Bool) (pend : List Char),
      (∀ c ∈ pend, Char.isWhitespace c = true) →
      countQ (nwRun t r mode pend l) = countQ l := by
  intro l
  induction l with
  | nil =>
    intro mode pend hpend
    cases mode <;> simp [nwRun, countQ, countQ_reverse, countQ_of_all_ws pend hpend]
  | cons c cs ih =>
    intro mode pend hpend
    cases mode with
    | true =>
      by_cases hws : Char.isWhitespace c = true
      · rw [show nwRun t r true pend (c :: cs) = nwRun t r true [] cs from by
          simp [nwRun, hws]]
        rw [ih true [] (by simp)]
        simp [countQ, if_neg (ws_ne_q hws)]
      · by_cases hct : c = t
        · subst hct
          rw [show nwRun c r true pend (c :: cs) = r ++ nwRun c r true [] cs from by
            simp [nwRun, hws]]
          rw [countQ_append, hr, ih true [] (by simp)]
          simp [countQ, if_neg ht]
        · rw [show nwRun t r true pend (c :: cs) = c :: nwRun t r false [] cs from by
            simp [nwRun, hws, hct]]
          simp [countQ, ih false [] (by simp)]
    | false =>
      by_cases hws : Char.isWhitespace c = true
      · rw [show nwRun t r false pend (c :: cs) = nwRun t r false (c :: pend) cs from by
          simp [nwRun, hws]]
        rw [ih false (c :: pend) ?_]
        · simp [countQ, if_neg (ws_ne_q hws)]
        · intro d hd
          rcases List.mem_cons.mp hd with rfl | hd
          · exact hws
          · exact hpend d hd
      · by_cases hct : c = t
        · subst hct
          rw [show nwRun c r false pend (c :: cs) = r ++ nwRun c r true [] cs from by
            simp [nwRun, hws]]
          rw [countQ_append, hr, ih true [] (by simp)]
          simp [countQ, if_neg ht]
        · rw [show nwRun t r false pend (c :: cs) = pend.reverse ++ c :: nwRun t r false [] cs
            from by simp [nwRun, hws, hct]]
          rw [countQ_append, countQ_reverse, countQ_of_all_ws pend hpend]
          simp [countQ, ih false [] (by simp)]

theorem countQ_collapse (l : List Char) : countQ (collapseWs l) = countQ l :=
  countQ_collapseAux l false

theorem countQ_normalize (l : List Char) : countQ (normalizeSql l) = countQ l := by
  unfold normalizeSql
  rw [countQ_nwRun ')' [')'] (by decide) (by decide) _ false [] (by simp),
    countQ_nwRun '(' ['('] (by decide) (by decide) _ false [] (by simp),
    countQ_nwRun ',' [',', ' '] (by decide) (by decide) _ false [] (by simp),
    countQ_collapse, countQ_trim]

theorem buildSqlChars_nil_params {V : Type} :
    ∀ ss : List (List Char), (buildSqlChars ss ([] : List V)).2 = [] := by
  intro ss
  induction ss with
  | nil => rfl
  | cons s ss ih => simp [buildSqlChars, ih]

theorem buildSqlChars_params {V : Type} :
    ∀ (ss : List (List Char)) (vs : List V), vs.length < ss.length →
      (buildSqlChars ss vs).2 = vs := by
  intro ss
  induction ss with
  | nil => intro vs h; simp at h
  | cons s ss ih =>
    intro vs h
    cases vs with
    | nil => simp [buildSqlChars, buildSqlChars_nil_params]
    | cons v vs =>
      simp only [buildSqlChars]
      rw [ih vs (by simpa using h)]

theorem buildSqlChars_nil_count {V : Type} :
    ∀ ss : List (List Char),
      countQ (buildSqlChars ss ([] : List V)).1 = (ss.map countQ).sum := by
  intro ss
  induction ss with
  | nil => rfl
  | cons s ss ih => simp [buildSqlChars, countQ_append, ih]

theorem buildSqlChars_count {V : Type} :
    ∀ (ss : List (List Char)) (vs : List V), vs.length < ss.length →
      countQ (buildSqlChars ss vs).1 = (ss.map countQ).sum + vs.length := by
  intro ss
  induction ss with
  | nil => intro vs h; simp at h
  | cons s ss ih =>
    intro vs h
    cases vs with
    | nil => simp [buildSqlChars, countQ_append, buildSqlChars_nil_count]
    | cons v vs =>
      simp only [buildSqlChars, List.map_cons, List.sum_cons, List.length_cons]
      rw [countQ_append]
      simp only [countQ]
      rw [ih vs (by simpa using h)]
      simp
      omega

/-- C1 counterexample: a literal segment containing a `'?'` character.  With
segments `["?", ""]` and one interleaved value, the parameter count is `1`
but the output SQL contains two `'?'` characters, so the output SQL does not
contain exactly as many `'?'` placeholder characters as there are interleaved
values. -/
theorem parseSqlTemplate_literal_question_mark :
    (parseSqlTemplate ["?", ""] [(5 : Int)] true).params.length = 1 ∧
    (parseSqlTemplate ["?", ""] [(5 : Int)] true).sql = "??" ∧
    countQ (parseSqlTemplate ["?", ""] [(5 : Int)] true).sql.data = 2 := by
  decide

/-- C1 (amended): for every interleaving input
(`strings.length = values.length + 1`), `parseSqlTemplate` returns the input
value list itself, in order, as `params` (values are never inspected or
mutated by the normalization pass, which runs on the SQL skeleton after
extraction), so `params.length` equals the number of interleaved values; and
provided no literal segment itself contains a `'?'` character, the output SQL
contains exactly `values.length` occurrences of `'?'`.  The no-`'?'` proviso
guards only the placeholder-count clause: the `params` clauses hold for every
interleaving input. -/
theorem parseSqlTemplate_params_placeholders {V : Type}
    (strings : List String) (values : List V)
    (hlen : strings.length = values.length + 1) :
    (parseSqlTemplate strings values true).params = values ∧
    (parseSqlTemplate strings values true).params.length = values.length ∧
    ((∀ s ∈ strings, countQ s.data = 0) →
      countQ (parseSqlTemplate strings values true).sql.data = values.length) := by
  have hlt : values.length < (strings.map String.data).length := by
    simp [hlen]
  have hparams : (parseSqlTemplate strings values true).params = values := by
    simp only [parseSqlTemplate]
    exact buildSqlChars_params _ _ hlt
  refine ⟨hparams, by rw [hparams], ?_⟩
  intro hq
  have hsql : (parseSqlTemplate strings values true).sql.data =
      normalizeSql (buildSqlChars (strings.map String.data) values).1 := by
    simp only [parseSqlTemplate, if_pos]
  rw [hsql, countQ_normalize, buildSqlChars_count _ _ hlt]
  have hzero : ((strings.map String.data).map countQ).sum = 0 := by
    apply List.sum_eq_zero
    intro x hx
    simp only [List.map_map, List.mem_map] at hx
    obtain ⟨s, hs, rfl⟩ := hx
    exact hq s hs
  rw [hzero]
  omega

/-- Witness for the amended C1: the `params` clause also at the
counterexample input `["?", ""]`, and both clauses at the round-trip input. -/
theorem parseSqlTemplate_params_placeholders_witness :
    (parseSqlTemplate ["?", ""] [(5 : Int)] true).params = [5] ∧
    (parseSqlTemplate ["SELECT a, b FROM t WHERE x = ", ""] [(5 : Int)] true).params = [5] ∧
    countQ (parseSqlTemplate ["SELECT a, b FROM t WHERE x = ", ""] [(5 : Int)] true).sql.data =
      1 :=
  ⟨(parseSqlTemplate_params_placeholders ["?", ""] [(5 : Int)] (by decide)).1,
   (parseSqlTemplate_params_placeholders ["SELECT a, b FROM t WHERE x = ", ""] [(5 : Int)]
      (by decide)).1,
   (parseSqlTemplate_params_placeholders ["SELECT a, b FROM t WHERE x = ", ""] [(5 : Int)]
      (by decide)).2.2 (by decide)⟩

/-! ### Grouping lemmas (claim C8) -/

theorem mem_foldl_addFirstOccurrence :
    ∀ (l acc : List String) (x : String),
      x ∈ l.foldl addFirstOccurrence acc ↔ x ∈ acc ∨ x ∈ l := by
  intro l
  induction l with
  | nil => intro acc x; simp
  | cons s l ih =>
    intro acc x
    simp only [List.foldl_cons]
    rw [ih]
    unfold addFirstOccurrence
    by_cases hs : s ∈ acc
    · rw [if_pos hs]
      constructor
      · rintro (h | h)
        · exact Or.inl h
        · exact Or.inr (List.mem_cons_of_mem s h)
      · rintro (h | h)
        · exact Or.inl h
        · rcases List.mem_cons.mp h with rfl | h
          · exact Or.inl hs
          · exact Or.inr h
    · rw [if_neg hs]
      simp only [List.mem_append, List.mem_singleton, List.mem_cons]
      tauto

theorem mem_firstOccurrences {x : String} {l : List String} :
    x ∈ firstOccurrences l ↔ x ∈ l := by
  unfold firstOccurrences
  rw [mem_foldl_addFirstOccurrence]
  simp

theorem firstOccurrences_append_one (l : List String) (s : String) :
    firstOccurrences (l ++ [s]) =
      if s ∈ firstOccurrences l then firstOccurrences l
      else firstOccurrences l ++ [s] := by
  unfold firstOccurrences
  rw [List.foldl_append]
  rfl

theorem schemaGroupsSpec_snoc (done : List TableInfo) (t : TableInfo) :
    addTableToGroups (schemaGroupsSpec done) t = schemaGroupsSpec (done ++ [t]) := by
  have hmapappend :
      (done ++ [t]).map TableInfo.table_schema =
        done.map TableInfo.table_schema ++ [t.table_schema] := by
    simp
  by_cases hmem : t.table_schema ∈ done.map TableInfo.table_schema
  · have hfo : t.table_schema ∈ firstOccurrences (done.map TableInfo.table_schema) :=
      mem_firstOccurrences.mpr hmem
    have hany : (schemaGroupsSpec done).any (fun p => p.1 = t.table_schema) = true := by
      rw [List.any_eq_true]
      refine ⟨(t.table_schema,
        ((done.filter fun x => x.table_schema = t.table_schema).map TableInfo.table_name)),
        ?_, by simp⟩
      unfold schemaGroupsSpec
      exact List.mem_map.mpr ⟨t.table_schema, hfo, rfl⟩
    unfold addTableToGroups
    rw [if_pos hany]
    unfold schemaGroupsSpec
    rw [hmapappend, firstOccurrences_append_one, if_pos hfo, List.map_map]
    apply List.map_congr_left
    intro s hs
    simp only [Function.comp]
    by_cases hsch : s = t.table_schema
    · subst hsch
      rw [if_pos rfl]
      simp only [Prod.mk.injEq, true_and]
      rw [List.filter_append]
      simp [List.filter]
    · rw [if_neg (by simpa using hsch)]
      simp only [Prod.mk.injEq, true_and]
      rw [List.filter_append]
      have hfil : List.filter (fun x => decide (x.table_schema = s)) [t] = [] := by
        simp only [List.filter]
        rw [decide_eq_false fun hcon => hsch hcon.symm]
      rw [hfil, List.append_nil]
  · have hfo : t.table_schema ∉ firstOccurrences (done.map TableInfo.table_schema) := by
      rw [mem_firstOccurrences]
      exact hmem
    have hany : (schemaGroupsSpec done).any (fun p => p.1 = t.table_schema) = false := by
      rw [List.any_eq_false]
      intro p hp
      unfold schemaGroupsSpec at hp
      obtain ⟨s, hsfo, rfl⟩ := List.mem_map.mp hp
      simp only [decide_eq_true_eq]
      intro hcon
      exact hfo (hcon ▸ hsfo)
    unfold addTableToGroups
    rw [if_neg (by simp [hany])]
    unfold schemaGroupsSpec
    rw [hmapappend, firstOccurrences_append_one, if_neg hfo, List.map_append]
    congr 1
    · apply List.map_congr_left
      intro s hs
      simp only [Prod.mk.injEq, true_and]
      rw [List.filter_append]
      have hne : ¬(t.table_schema = s) := by
        intro hcon
        exact hfo (hcon ▸ hs)
      have hfil : List.filter (fun x => decide (x.table_schema = s)) [t] = [] := by
        simp only [List.filter]
        rw [decide_eq_false fun hcon => hne hcon]
      rw [hfil, List.append_nil]
    · simp only [List.map_cons, List.map_nil, Prod.mk.injEq, true_and]
      rw [List.filter_append]
      have hdone : List.filter (fun x => decide (x.table_schema = t.table_schema)) done = [] := by
        rw [List.filter_eq_nil_iff]
        intro x hx
        simp only [decide_eq_true_eq]
        intro hcon
        exact hmem (List.mem_map.mpr ⟨x, hx, hcon⟩)
      rw [hdone]
      simp [List.filter]

theorem foldl_addTableToGroups_spec :
    ∀ (rest done : List TableInfo),
      List.foldl addTableToGroups (schemaGroupsSpec done) rest =
        schemaGroupsSpec (done ++ rest) := by
  intro rest
  induction rest with
  | nil => intro done; simp
  | cons r rest ih =>
    intro done
    simp only [List.foldl_cons]
    rw [schemaGroupsSpec_snoc, ih]
    congr 1
    simp

theorem groupTablesBySchema_eq_spec (tables : List TableInfo) :
    groupTablesBySchema tables = schemaGroupsSpec tables := by
  have h := foldl_addTableToGroups_spec tables []
  simpa [groupTablesBySchema] using h

theorem flatMap_map_pair {A : Type} (l : List String) (f : String → List String)
    (h : String → List String → List A) :
    ((l.map fun s => (s, f s)).flatMap fun p => h p.1 p.2) = l.flatMap fun s => h s (f s) := by
  induction l with
  | nil => rfl
  | cons s l ih => simp [List.flatMap_cons, ih]

/-- C8: `getAllColumns` groups the `getTables` result by schema and issues
exactly one `getColumns` query per distinct schema (in first-encountered
order), returning the concatenation of the per-schema results with each
group's internal order (the input order of that schema's tables) preserved. -/
theorem getAllColumns_batches_per_schema {A : Type}
    (getColumns : String → List String → List A) (tables : List TableInfo) :
    getAllColumns getColumns tables =
      (firstOccurrences (tables.map TableInfo.table_schema)).flatMap (fun s =>
        getColumns s ((tables.filter fun t => t.table_schema = s).map TableInfo.table_name)) ∧
    (groupTablesBySchema tables).map Prod.fst =
      firstOccurrences (tables.map TableInfo.table_schema) ∧
    (groupTablesBySchema tables).length =
      (firstOccurrences (tables.map TableInfo.table_schema)).length := by
  refine ⟨?_, ?_, ?_⟩
  · unfold getAllColumns
    rw [groupTablesBySchema_eq_spec]
    unfold schemaGroupsSpec
    exact flatMap_map_pair _ _ _
  · rw [groupTablesBySchema_eq_spec]
    unfold schemaGroupsSpec
    rw [List.map_map]
    have hid : (Prod.fst ∘ fun s =>
        (s, (tables.filter fun t => t.table_schema = s).map TableInfo.table_name)) = id := by
      funext s
      rfl
    rw [hid, List.map_id]
  · rw [groupTablesBySchema_eq_spec]
    unfold schemaGroupsSpec
    rw [List.length_map]

/-! ### Casing conversion agreement (claim C3) -/

theorem alpha_ne_underscore {d : Char} (h : d.isAlpha = true) : d ≠ '_' := by
  intro hcon
  subst hcon
  simp [Char.isAlpha, Char.isUpper, Char.isLower] at h

theorem toLower_ne_underscore {c : Char} (h : c ≠ '_') : c.toLower ≠ '_' := by
  by_cases hu : c.isUpper = true
  · intro hcon
    have h32 := toLower_of_upper hu
    rw [hcon] at h32
    obtain ⟨h1, h2⟩ := isUpper_iff.mp hu
    have h95 : ('_' : Char).toNat = 95 := rfl
    rw [h95] at h32
    omega
  · rw [toLower_eq_self (by simpa using hu)]
    exact h

theorem toUpper_not_lower (c : Char) : (Char.toUpper c).isLower = false := by
  by_cases hl : c.isLower = true
  · have := toUpper_of_lower hl
    obtain ⟨h1, h2⟩ := isLower_iff.mp hl
    by_contra hcon
    simp only [Bool.not_eq_false] at hcon
    obtain ⟨g1, g2⟩ := isLower_iff.mp hcon
    omega
  · rw [toUpper_eq_self (by simpa using hl)]
    simpa using hl

theorem replUnderscore_cons_ne {c : Char} (h : c ≠ '_') (cs : List Char) :
    replUnderscore (c :: cs) = c :: replUnderscore cs := by
  conv_lhs => rw [replUnderscore.eq_def]
  simp [h]

theorem replUnderscore_underscore_lower {d : Char} (h : d.isLower = true) (ds : List Char) :
    replUnderscore ('_' :: d :: ds) = Char.toUpper d :: replUnderscore ds := by
  conv_lhs => rw [replUnderscore.eq_def]
  simp [h]

theorem splitOnUnderscore_shape : ∀ l : List Char, ∃ g gs, splitOnUnderscore l = g :: gs := by
  intro l
  induction l with
  | nil => exact ⟨[], [], rfl⟩
  | cons c cs ih =>
    by_cases hc : c = '_'
    · subst hc
      exact ⟨[], splitOnUnderscore cs, by simp [splitOnUnderscore]⟩
    · obtain ⟨g, gs, hgs⟩ := ih
      refine ⟨c :: g, gs, ?_⟩
      conv_lhs => rw [splitOnUnderscore.eq_def]
      simp [hc, hgs]

theorem splitOnUnderscore_cons_ne {c : Char} (h : c ≠ '_') {cs g : List Char}
    {gs : List (List Char)} (hsplit : splitOnUnderscore cs = g :: gs) :
    splitOnUnderscore (c :: cs) = (c :: g) :: gs := by
  conv_lhs => rw [splitOnUnderscore.eq_def]
  simp [h, hsplit]

theorem splitOnUnderscore_cons_underscore (cs : List Char) :
    splitOnUnderscore ('_' :: cs) = [] :: splitOnUnderscore cs := by
  conv_lhs => rw [splitOnUnderscore.eq_def]
  simp

theorem specLowerCamel_eq {l g : List Char} {gs : List (List Char)}
    (h : splitOnUnderscore l = g :: gs) :
    specLowerCamel l = g.map Char.toLower ++ (gs.map capitalizeSegment).flatten := by
  simp [specLowerCamel, h]

theorem undOk_cons_ne {c : Char} (h : c ≠ '_') (cs : List Char) :
    underscoresFollowedByLetter (c :: cs) = underscoresFollowedByLetter cs := by
  simp [underscoresFollowedByLetter, h]

theorem undOk_underscore (d : Char) (ds : List Char) :
    underscoresFollowedByLetter ('_' :: d :: ds) =
      (d.isAlpha && underscoresFollowedByLetter (d :: ds)) := by
  simp [underscoresFollowedByLetter]

theorem toCamelCase_cons_ne {c : Char} (hc : c ≠ '_') (cs : List Char) :
    toCamelCase (c :: cs) = c.toLower :: toCamelCase cs := by
  unfold toCamelCase
  simp only [List.map_cons]
  exact replUnderscore_cons_ne (toLower_ne_underscore hc) _

theorem toCamelCase_underscore_alpha {d : Char} (hd : d.isAlpha = true) (ds : List Char) :
    toCamelCase ('_' :: d :: ds) = Char.toUpper d.toLower :: toCamelCase ds := by
  unfold toCamelCase
  simp only [List.map_cons]
  have h95 : Char.toLower '_' = '_' := rfl
  rw [h95]
  exact replUnderscore_underscore_lower (toLower_isLower_of_alpha hd) _

theorem camel_agree_bounded :
    ∀ n : Nat, ∀ l : List Char, l.length ≤ n → underscoresFollowedByLetter l = true →
      toCamelCase l = specLowerCamel l := by
  intro n
  induction n with
  | zero =>
    intro l hl _
    have hnil : l = [] := List.length_eq_zero.mp (Nat.le_zero.mp hl)
    subst hnil
    rfl
  | succ n ih =>
    intro l hl hok
    cases l with
    | nil => rfl
    | cons c cs =>
      by_cases hc : c = '_'
      · subst hc
        cases cs with
        | nil =>
          exfalso
          simp [underscoresFollowedByLetter] at hok
        | cons d ds =>
          rw [undOk_underscore] at hok
          obtain ⟨hd, hok2⟩ := (Bool.and_eq_true _ _).mp hok
          have hdne : d ≠ '_' := alpha_ne_underscore hd
          have hok3 : underscoresFollowedByLetter ds = true := by
            rwa [undOk_cons_ne hdne] at hok2
          obtain ⟨g, gs, hgs⟩ := splitOnUnderscore_shape ds
          have hsplit2 : splitOnUnderscore (d :: ds) = (d :: g) :: gs :=
            splitOnUnderscore_cons_ne hdne hgs
          have hsplit : splitOnUnderscore ('_' :: d :: ds) = [] :: (d :: g) :: gs := by
            rw [splitOnUnderscore_cons_underscore, hsplit2]
          rw [toCamelCase_underscore_alpha hd, specLowerCamel_eq hsplit]
          have hcap : capitalizeSegment (d :: g) = Char.toUpper d.toLower :: g.map Char.toLower := by
            simp [capitalizeSegment]
          simp only [List.map_nil, List.nil_append, List.map_cons, List.flatten_cons, hcap,
            List.cons_append]
          congr 1
          rw [ih ds (by simp at hl; omega) hok3, specLowerCamel_eq hgs]
      · rw [undOk_cons_ne hc] at hok
        obtain ⟨g, gs, hgs⟩ := splitOnUnderscore_shape cs
        have hsplit : splitOnUnderscore (c :: cs) = (c :: g) :: gs :=
          splitOnUnderscore_cons_ne hc hgs
        rw [toCamelCase_cons_ne hc, specLowerCamel_eq hsplit]
        simp only [List.map_cons, List.cons_append]
        congr 1
        rw [ih cs (by simp at hl; omega) hok, specLowerCamel_eq hgs]

theorem camel_agree (l : List Char) (hok : underscoresFollowedByLetter l = true) :
    toCamelCase l = specLowerCamel l :=
  camel_agree_bounded l.length l le_rfl hok

theorem pascal_agree (l : List Char) (hok : underscoresFollowedByLetter l = true) :
    toPascalCase l = specUpperCamel l := by
  cases l with
  | nil => rfl
  | cons c cs =>
    by_cases hc : c = '_'
    · subst hc
      cases cs with
      | nil =>
        exfalso
        simp [underscoresFollowedByLetter] at hok
      | cons d ds =>
        rw [undOk_underscore] at hok
        obtain ⟨hd, hok2⟩ := (Bool.and_eq_true _ _).mp hok
        have hdne : d ≠ '_' := alpha_ne_underscore hd
        have hok3 : underscoresFollowedByLetter ds = true := by
          rwa [undOk_cons_ne hdne] at hok2
        obtain ⟨g, gs, hgs⟩ := splitOnUnderscore_shape ds
        have hsplit2 : splitOnUnderscore (d :: ds) = (d :: g) :: gs :=
          splitOnUnderscore_cons_ne hdne hgs
        have hsplit : splitOnUnderscore ('_' :: d :: ds) = [] :: (d :: g) :: gs := by
          rw [splitOnUnderscore_cons_underscore, hsplit2]
        unfold toPascalCase
        rw [toCamelCase_underscore_alpha hd]
        unfold specUpperCamel
        rw [hsplit]
        have hcap : capitalizeSegment (d :: g) = Char.toUpper d.toLower :: g.map Char.toLower := by
          simp [capitalizeSegment]
        simp only [List.map_cons, List.flatten_cons, hcap, List.cons_append]
        have hcapseg : capitalizeSegment [] = [] := rfl
        rw [hcapseg, List.nil_append]
        rw [toUpper_eq_self (toUpper_not_lower d.toLower)]
        congr 1
        rw [camel_agree ds hok3, specLowerCamel_eq hgs]
    · obtain ⟨g, gs, hgs⟩ := splitOnUnderscore_shape cs
      have hsplit : splitOnUnderscore (c :: cs) = (c :: g) :: gs :=
        splitOnUnderscore_cons_ne hc hgs
      have hok2 : underscoresFollowedByLetter cs = true := by
        rwa [undOk_cons_ne hc] at hok
      unfold toPascalCase
      rw [toCamelCase_cons_ne hc]
      unfold specUpperCamel
      rw [hsplit]
      have hcap : capitalizeSegment (c :: g) = Char.toUpper c.toLower :: g.map Char.toLower := by
        simp [capitalizeSegment]
      simp only [List.map_cons, List.flatten_cons, hcap, List.cons_append]
      congr 1
      rw [camel_agree cs hok2, specLowerCamel_eq hgs]

/-- The `USERS` table of the end-to-end scenario. -/
def usersTable : TableInfo :=
  { table_catalog := "DB", table_schema := "PUBLIC", table_name := "USERS",
    table_type := "BASE TABLE", comment := none }

/-- The three columns of the end-to-end scenario, in ordinal order. -/
def usersColumns : List ColumnInfo :=
  [ { table_catalog := "DB", table_schema := "PUBLIC", table_name := "USERS",
      column_name := "USER_ID", ordinal_position := 1, column_default := none,
      is_nullable := "NO", data_type := "NUMBER", character_maximum_length := none,
      numeric_precision := some 38, numeric_scale := some 0, comment := none },
    { table_catalog := "DB", table_schema := "PUBLIC", table_name := "USERS",
      column_name := "EMAIL", ordinal_position := 2, column_default := none,
      is_nullable := "NO", data_type := "VARCHAR(255)", character_maximum_length := some 255,
      numeric_precision := none, numeric_scale := none, comment := none },
    { table_catalog := "DB", table_schema := "PUBLIC", table_name := "USERS",
      column_name := "REVENUE", ordinal_position := 3, column_default := none,
      is_nullable := "YES", data_type := "NUMBER(38,2)", character_maximum_length := none,
      numeric_precision := some 38, numeric_scale := some 2, comment := none } ]

/-- The record the generator produces for the scenario. -/
def usersInterface : GeneratedInterface :=
  { name := "Users", tableName := "USERS", schema := "PUBLIC",
    properties :=
      [ { name := "userId", type := "number", nullable := false, comment := none },
        { name := "email", type := "string", nullable := false, comment := none },
        { name := "revenue", type := "number", nullable := true, comment := none } ],
    comment := none }

/-- A table named `T` (counterexample input for C3). -/
def tableT : TableInfo :=
  { table_catalog := "DB", table_schema := "PUBLIC", table_name := "T",
    table_type := "BASE TABLE", comment := none }

/-- A column named `COL_1`: an underscore followed by a digit (counterexample
input for C3). -/
def colUnderscoreDigit : ColumnInfo :=
  { table_catalog := "DB", table_schema := "PUBLIC", table_name := "T",
    column_name := "COL_1", ordinal_position := 1, column_default := none,
    is_nullable := "NO", data_type := "NUMBER", character_maximum_length := none,
    numeric_precision := some 38, numeric_scale := some 0, comment := none }

/-- C3 counterexample: the source converts a column name by lower-casing and
replacing only `_` followed by a lowercase letter, so for `COL_1` (underscore
followed by a digit) it produces the property name `col_1`, while the claimed
split-on-underscore conversion produces `col1`. -/
theorem generateInterface_underscore_digit :
    ((generateInterface [] tableT [colUnderscoreDigit]).properties.map
      GeneratedProperty.name) = ["col_1"] ∧
    String.mk (specLowerCamel "COL_1".data) = "col1" ∧
    ("col_1" : String) ≠ "col1" := by
  decide

/-- C3 (amended): the Declaration Generator produces one property per column
in input (ordinal) order, with the property name obtained by lower-casing the
column name and replacing each `_` followed by a lowercase letter with that
letter capitalized, and the type name likewise from the table name with the
first character then capitalized; whenever every underscore of the identifier
is followed by an ASCII letter this coincides with the claimed
split-on-underscore camel conversions.  Nullable columns are rendered as a
`| null` union, never as an optional-field marker, and the `USERS` scenario
yields exactly the record `Users \x7b userId: number; email: string;
revenue: number | null \x7d` in that order. -/
theorem generateInterface_spec :
    (∀ l : List Char, underscoresFollowedByLetter l = true →
        toCamelCase l = specLowerCamel l) ∧
    (∀ l : List Char, underscoresFollowedByLetter l = true →
        toPascalCase l = specUpperCamel l) ∧
    (∀ (overrides : List (String × String)) (table : TableInfo) (columns : List ColumnInfo),
        ((generateInterface overrides table columns).properties.map GeneratedProperty.name) =
            columns.map (fun col => String.mk (toCamelCase col.column_name.data)) ∧
        ((generateInterface overrides table columns).properties.map GeneratedProperty.type) =
            columns.map (fun col => mapType overrides col.data_type) ∧
        ((generateInterface overrides table columns).properties.map GeneratedProperty.nullable) =
            columns.map (fun col => decide (col.is_nullable = "YES")) ∧
        (generateInterface overrides table columns).name =
            String.mk (toPascalCase table.table_name.data)) ∧
    generateInterface [] usersTable usersColumns = usersInterface ∧
    generateInterfaceCode usersInterface =
      "export interface Users \x7b\n  userId: number;\n  email: string;\n  revenue: number | null;\n\x7d\n" := by
  refine ⟨camel_agree, pascal_agree, ?_, by decide, by decide⟩
  intro overrides table columns
  refine ⟨?_, ?_, ?_, rfl⟩ <;> simp [generateInterface]

/-- Witness for the amended C3: the conversions agree on the scenario's
identifiers. -/
theorem generateInterface_spec_witness :
    toCamelCase "USER_ID".data = specLowerCamel "USER_ID".data ∧
    toPascalCase "USERS".data = specUpperCamel "USERS".data :=
  ⟨generateInterface_spec.1 "USER_ID".data (by decide),
   generateInterface_spec.2.1 "USERS".data (by decide)⟩
